import Mathlib

/-!
Verification of the Lodestone mod-classification core (src/main.rs) against
its natural-language specification.

The Rust program is shallowly embedded: the filesystem is abstracted to
explicit lists of file names and to functions from names to contents, zip
archives to lists of named entries, and the TOML/JSON parsers to inductive
value trees together with `Option`-valued parse results carried by each
archive entry.  Fallible Rust functions (`Result<_, Box<dyn Error>>`)
become `Except Unit` computations.  All definitions follow the source
functions of the same name.
-/

namespace Lodestone

/-- The `DefaultTags` enum of the source: the side classification of a mod. -/
inductive DefaultTags where
  | Unknown
  | Client
  | Server
  | Both
deriving DecidableEq

/-- The `ModTypes` enum of the source: the loader family of a mod. -/
inductive ModTypes where
  | Unknown
  | Forge
  | NeoForge
  | Fabric
  | Quilt
deriving DecidableEq

/-- The `Mod` struct: a registry entry recording the expected version,
tag and loader family for one mod identifier. -/
structure Mod where
  mod_version : String
  mod_tag : DefaultTags
  mod_type : ModTypes
deriving DecidableEq

/-- First-match lookup in an association list; models `BTreeMap::get`
(keys of a `BTreeMap` are unique, so first match is the match). -/
def btreeGet {α : Type} (l : List (String × α)) (k : String) : Option α :=
  match l with
  | [] => none
  | p :: rest => if p.1 = k then some p.2 else btreeGet rest k

/-- Ordered insert-or-replace into a key-sorted association list; models
`BTreeMap::insert` (keys kept sorted, an existing key's value replaced). -/
def btreeInsert {α : Type} (k : String) (v : α) :
    List (String × α) → List (String × α)
  | [] => [(k, v)]
  | p :: rest =>
    if k < p.1 then (k, v) :: p :: rest
    else if k = p.1 then (k, v) :: rest
    else p :: btreeInsert k v rest

/-- The characters after the last dot of a character list, `none` when the
list holds no dot. -/
def extensionChars : List Char → Option (List Char)
  | [] => none
  | c :: rest =>
    match extensionChars rest with
    | some e => some e
    | none => if c = '.' then some rest else none

/-- The extension of a file name, with the semantics of Rust's
`Path::extension`: `none` when the name holds no dot, or when its only dot
leads the name (a dotfile); otherwise the text after the last dot. -/
def extension (name : String) : Option String :=
  match name.toList with
  | [] => none
  | c :: rest =>
    if c = '.' then (extensionChars rest).map (fun e => String.mk e)
    else (extensionChars (c :: rest)).map (fun e => String.mk e)

/-- `get_jar_files`: keep, in directory order, exactly the names whose
extension is the case-sensitive string `jar`.  The directory listing is
abstracted to the list of file names it yields. -/
def get_jar_files (files : List String) : List String :=
  files.filter (fun f => extension f == some "jar")

/-- `push_log`: drop the entry when it repeats the last line, else append
and, when the log then exceeds 200 lines, drain the oldest down to 200. -/
def push_log (log : List String) (entry : String) : List String :=
  if log.getLast? = some entry then log
  else
    let log := log ++ [entry]
    if log.length > 200 then log.drop (log.length - 200) else log

/-- The epilogue of `update`: drain the log's oldest lines down to 200
whenever it exceeds 200. -/
def truncate_log (log : List String) : List String :=
  if log.length > 200 then log.drop (log.length - 200) else log

/-- The effect of one `update` call on `state.log`: every match arm of
`update` touches the log only through `push_log` (some sequence of entries
depending on the message and the outcome), and arms that return early via
`return Task::none()` skip the final drain while all other paths reach it. -/
def update_log (log : List String) (entries : List String)
    (earlyReturn : Bool) : List String :=
  let l := entries.foldl push_log log
  if earlyReturn then l else truncate_log l

theorem push_log_length_le (log : List String) (entry : String) :
    (push_log log entry).length ≤ max log.length 200 := by
  unfold push_log
  split
  · exact le_max_left _ _
  · simp only []
    split
    · next h =>
      rw [List.length_drop]
      omega
    · next h =>
      simp at h ⊢
      omega

theorem truncate_log_length_le (log : List String) :
    (truncate_log log).length ≤ 200 := by
  unfold truncate_log
  split
  · next h =>
    rw [List.length_drop]
    omega
  · next h => omega

theorem foldl_push_log_length_le (entries : List String) (log : List String) :
    (entries.foldl push_log log).length ≤ max log.length 200 := by
  induction entries generalizing log with
  | nil => exact le_max_left _ _
  | cons e rest ih =>
    calc (List.foldl push_log (push_log log e) rest).length
        ≤ max (push_log log e).length 200 := ih _
      _ ≤ max (max log.length 200) 200 :=
          max_le_max_right 200 (push_log_length_le log e)
      _ = max log.length 200 := by omega

/-- C10: after processing any message the log holds at most 200 entries:
the per-entry append path (`push_log`) and the post-update drain both cap
the length, so the bound is an invariant of every `update` transition,
early-return arms included. -/
theorem C10_log_bounded (log : List String) (entries : List String)
    (earlyReturn : Bool) (h : log.length ≤ 200) :
    (update_log log entries earlyReturn).length ≤ 200 := by
  have h1 := foldl_push_log_length_le entries log
  have h2 := truncate_log_length_le (entries.foldl push_log log)
  simp only [update_log]
  split
  · omega
  · exact h2

/-- Witness for C10 at a concrete log and message effect. -/
theorem C10_log_bounded_witness :
    (update_log ["Welcome to Lodestone."] ["Scan failed: x"] true).length
      ≤ 200 :=
  C10_log_bounded ["Welcome to Lodestone."] ["Scan failed: x"] true
    (by decide)

/-- C7: candidate enumeration keeps exactly the files whose extension is
the case-sensitive string `jar`; `Thing.JAR` has extension `JAR` and is
never a candidate. -/
theorem C7_jar_candidates (files : List String) (f : String) :
    (f ∈ get_jar_files files ↔ f ∈ files ∧ extension f = some "jar")
      ∧ "Thing.JAR" ∉ get_jar_files ["Thing.JAR"] := by
  constructor
  · simp [get_jar_files, List.mem_filter]
  · decide

/-- A TOML value as observed by the source through the `toml` crate's
accessors.  A float carries the decimal text its `to_string` renders. -/
inductive TomlValue where
  | str : String → TomlValue
  | float : String → TomlValue
  | int : Int → TomlValue
  | boolean : Bool → TomlValue
  | arr : List TomlValue → TomlValue
  | table : List (String × TomlValue) → TomlValue

/-- `Value::as_str` of the `toml` crate. -/
def tomlAsStr : TomlValue → Option String
  | .str s => some s
  | _ => none

/-- `Value::as_float` of the `toml` crate, already rendered by
`f64::to_string` as the source does. -/
def tomlAsFloatStr : TomlValue → Option String
  | .float r => some r
  | _ => none

/-- `Value::as_integer` of the `toml` crate. -/
def tomlAsInt : TomlValue → Option Int
  | .int i => some i
  | _ => none

/-- `Value::as_array` of the `toml` crate. -/
def tomlAsArray : TomlValue → Option (List TomlValue)
  | .arr xs => some xs
  | _ => none

/-- `Value::get` of the `toml` crate: field lookup on a table. -/
def tomlGet : TomlValue → String → Option TomlValue
  | .table fields, k => btreeGet fields k
  | _, _ => none

/-- A JSON value as observed through `serde_json`'s accessors.  A number
carries the decimal text its `f64::to_string` renders. -/
inductive JsonValue where
  | str : String → JsonValue
  | num : String → JsonValue
  | boolean : Bool → JsonValue
  | null : JsonValue
  | arr : List JsonValue → JsonValue
  | obj : List (String × JsonValue) → JsonValue

/-- `Value::as_str` of `serde_json`. -/
def jsonAsStr : JsonValue → Option String
  | .str s => some s
  | _ => none

/-- `Value::as_f64` of `serde_json`, already rendered by `f64::to_string`
as the source does. -/
def jsonAsF64Str : JsonValue → Option String
  | .num r => some r
  | _ => none

/-- `Value::as_array` of `serde_json`. -/
def jsonAsArray : JsonValue → Option (List JsonValue)
  | .arr xs => some xs
  | _ => none

/-- `Value::get` of `serde_json`: field lookup on an object. -/
def jsonGet : JsonValue → String → Option JsonValue
  | .obj fields, k => btreeGet fields k
  | _, _ => none

/-- The inner `parse_toml_version` helper of `get_mod_id_and_type`:
string kept as-is, else float rendering, else integer rendering. -/
def parse_toml_version (v : TomlValue) : Option String :=
  match tomlAsStr v with
  | some s => some s
  | none =>
    match tomlAsFloatStr v with
    | some f => some f
    | none =>
      match tomlAsInt v with
      | some i => some (toString i)
      | none => none

/-- The inner `parse_json_version` helper of `get_mod_id_and_type`:
string kept as-is, else number rendering. -/
def parse_json_version (v : JsonValue) : Option String :=
  match jsonAsStr v with
  | some s => some s
  | none => jsonAsF64Str v

/-- What the source observes of one archive entry's bytes: the outcome of
parsing them as TOML, the outcome of parsing them as JSON (`none` covers
both a read error and a malformed document) and whether the lower-cased
text contains `neoforge` or `neo-forge`. -/
structure EntryContent where
  tomlParse : Option TomlValue
  jsonParse : Option JsonValue
  lowerNeo : Bool

/-- One entry of a zip archive: its stored name and its content. -/
structure ZipEntry where
  name : String
  content : EntryContent

/-- Rust's `str::ends_with`: suffix equality on the character sequence. -/
def strEndsWith (s post : String) : Bool :=
  let r := s.toList.reverse
  let p := post.toList.reverse
  r.take p.length == p

/-- Whether an entry name ends with one of the three recognized manifest
filenames, in the source's dispatch order. -/
def isManifestName (name : String) : Bool :=
  strEndsWith name "mods.toml" || strEndsWith name "fabric.mod.json"
    || strEndsWith name "mcmod.info"

/-- The modId extraction of the `mods.toml` branch:
`mods[0].modId` as a string. -/
def tomlModId (parsed : TomlValue) : Option String :=
  ((((tomlGet parsed "mods").bind tomlAsArray).bind List.head?).bind
    (fun m => tomlGet m "modId")).bind tomlAsStr

/-- The version extraction of the `mods.toml` branch:
`mods[0].version`, falling back to `mods[0].modVersion`. -/
def tomlDetectedVersion (parsed : TomlValue) : Option String :=
  ((((tomlGet parsed "mods").bind tomlAsArray).bind List.head?).bind
    (fun m =>
      match tomlGet m "version" with
      | some v => some v
      | none => tomlGet m "modVersion")).bind
    (fun v => parse_toml_version v)

/-- The modId extraction of the `mcmod.info` branch: `[0].modid`. -/
def mcmodModId (parsed : JsonValue) : Option String :=
  (((jsonAsArray parsed).bind List.head?).bind
    (fun m => jsonGet m "modid")).bind jsonAsStr

/-- The version extraction of the `mcmod.info` branch: `[0].version`. -/
def mcmodVersion (parsed : JsonValue) : Option String :=
  (((jsonAsArray parsed).bind List.head?).bind
    (fun m => jsonGet m "version")).bind parse_json_version

/-- One iteration of the entry loop of `get_mod_id_and_type`: `none` when
the entry name matches no recognized manifest filename (the loop moves
on), otherwise the branch's result — a parse failure is an error, and a
parsed manifest without a string identifier yields `Except.ok none`. -/
def parseManifestEntry (e : ZipEntry) :
    Option (Except Unit (Option (String × ModTypes × Option String))) :=
  if strEndsWith e.name "mods.toml" then
    some (match e.content.tomlParse with
      | none => Except.error ()
      | some parsed =>
        let found_type :=
          if e.content.lowerNeo then ModTypes.NeoForge else ModTypes.Forge
        Except.ok ((tomlModId parsed).map
          (fun id => (id, found_type, tomlDetectedVersion parsed))))
  else if strEndsWith e.name "fabric.mod.json" then
    some (match e.content.jsonParse with
      | none => Except.error ()
      | some parsed =>
        Except.ok (((jsonGet parsed "id").bind jsonAsStr).map
          (fun id =>
            (id, ModTypes.Fabric,
              (jsonGet parsed "version").bind parse_json_version))))
  else if strEndsWith e.name "mcmod.info" then
    some (match e.content.jsonParse with
      | none => Except.error ()
      | some parsed =>
        Except.ok ((mcmodModId parsed).map
          (fun id => (id, ModTypes.Forge, mcmodVersion parsed))))
  else none

/-- `get_mod_id_and_type` over an opened archive's entries: walk the
entries in stored order and return the first manifest branch's result;
`Except.ok none` when no entry name matches. -/
def get_mod_id_and_type :
    List ZipEntry → Except Unit (Option (String × ModTypes × Option String))
  | [] => Except.ok none
  | e :: rest =>
    match parseManifestEntry e with
    | some r => r
    | none => get_mod_id_and_type rest

theorem parseManifestEntry_eq_none_iff (e : ZipEntry) :
    parseManifestEntry e = none ↔ isManifestName e.name = false := by
  unfold parseManifestEntry isManifestName
  split
  · next h => simp [h]
  · next h =>
    split
    · next h2 => simp [h2]
    · next h2 =>
      split
      · next h3 => simp [h3]
      · next h3 => simp [h, h2, h3]

theorem get_mod_id_skips_non_manifests (l : List ZipEntry)
    (h : ∀ x ∈ l, isManifestName x.name = false) (rest : List ZipEntry) :
    get_mod_id_and_type (l ++ rest) = get_mod_id_and_type rest := by
  induction l with
  | nil => rfl
  | cons e l ih =>
    have he : parseManifestEntry e = none :=
      (parseManifestEntry_eq_none_iff e).mpr (h e (by simp))
    simp only [List.cons_append, get_mod_id_and_type, he]
    exact ih (fun x hx => h x (by simp [hx]))

/-- C5: entries are inspected in stored order and the first entry whose
name matches a recognized manifest filename decides the whole result:
whatever follows that entry is never inspected, so a multi-loader archive
yields only the earliest matching entry's identity. -/
theorem C5_first_match_wins (l1 : List ZipEntry) (e : ZipEntry)
    (l2 l2h : List ZipEntry) (r : Except Unit (Option (String × ModTypes × Option String)))
    (hskip : ∀ x ∈ l1, isManifestName x.name = false)
    (hmatch : parseManifestEntry e = some r) :
    get_mod_id_and_type (l1 ++ e :: l2) = r
      ∧ get_mod_id_and_type (l1 ++ e :: l2)
          = get_mod_id_and_type (l1 ++ e :: l2h) := by
  have key : ∀ tail : List ZipEntry,
      get_mod_id_and_type (l1 ++ e :: tail) = r := by
    intro tail
    rw [get_mod_id_skips_non_manifests l1 hskip]
    simp [get_mod_id_and_type, hmatch]
  exact ⟨key l2, (key l2).trans (key l2h).symm⟩

/-- A `fabric.mod.json` entry declaring id `create`, version `0.5.8`. -/
def fabricEntry : ZipEntry :=
  { name := "fabric.mod.json"
    content :=
      { tomlParse := none
        jsonParse := some (JsonValue.obj
          [("id", JsonValue.str "create"),
           ("version", JsonValue.str "0.5.8")])
        lowerNeo := false } }

/-- A plain class-file entry matching no manifest name. -/
def classEntry : ZipEntry :=
  { name := "com/example/Main.class"
    content := { tomlParse := none, jsonParse := none, lowerNeo := false } }

/-- A `mods.toml` entry whose TOML content is malformed. -/
def badTomlEntry : ZipEntry :=
  { name := "META-INF/mods.toml"
    content := { tomlParse := none, jsonParse := none, lowerNeo := false } }

/-- Witness for C5: with a non-manifest entry first, the fabric manifest
decides the result and a trailing malformed `mods.toml` is never reached. -/
theorem C5_first_match_wins_witness :
    get_mod_id_and_type [classEntry, fabricEntry, badTomlEntry]
        = Except.ok (some ("create", ModTypes.Fabric, some "0.5.8"))
      ∧ get_mod_id_and_type [classEntry, fabricEntry, badTomlEntry]
          = get_mod_id_and_type [classEntry, fabricEntry] := by
  have h := C5_first_match_wins [classEntry] fabricEntry [badTomlEntry] []
    (Except.ok (some ("create", ModTypes.Fabric, some "0.5.8")))
    (by intro x hx; simp at hx; subst hx; rfl)
    (by rfl)
  exact h

/-- The `ScanResult` struct: one archive's classification record. -/
structure ScanResult where
  jar_name : String
  mod_id : String
  detected_type : ModTypes
  detected_version : Option String
  module_tag : Option DefaultTags
  module_type : Option ModTypes
  module_version : Option String
  full_match : Bool
deriving DecidableEq

/-- The `ScanSummary` struct: aggregate counts of one scan. -/
structure ScanSummary where
  jar_count : Nat
  identified_count : Nat
  full_match_count : Nat
deriving DecidableEq

/-- Opening the archive at a jar's path and running `get_mod_id_and_type`
on it; the filesystem is abstracted to a function from jar name to the
outcome of opening that archive (`Except.error` covering an unreadable or
non-zip file). -/
def inspect (archives : String → Except Unit (List ZipEntry))
    (jar : String) :
    Except Unit (Option (String × ModTypes × Option String)) :=
  match archives jar with
  | Except.error e => Except.error e
  | Except.ok entries => get_mod_id_and_type entries

/-- The record built by the body of the scan loop for one identified
archive: registry lookup, full-match computation, matched fields. -/
def mkScanResult (mods : List (String × Mod)) (jar_name mod_id : String)
    (detected_type : ModTypes) (detected_version : Option String) :
    ScanResult :=
  match btreeGet mods mod_id with
  | some mod_entry =>
    let module_version := mod_entry.mod_version
    let full_match :=
      (detected_version.map (fun v =>
        decide (v = module_version)
          && decide (detected_type = mod_entry.mod_type))).getD false
    { jar_name := jar_name, mod_id := mod_id,
      detected_type := detected_type, detected_version := detected_version,
      module_tag := some mod_entry.mod_tag,
      module_type := some mod_entry.mod_type,
      module_version := some module_version, full_match := full_match }
  | none =>
    { jar_name := jar_name, mod_id := mod_id,
      detected_type := detected_type, detected_version := detected_version,
      module_tag := none, module_type := none, module_version := none,
      full_match := false }

/-- The loop of `scan_directory`: walk the jar list, skip archives with no
identity, append a record and upsert the jar-to-identifier mapping for
each identified archive, and propagate the first error. -/
def scan_loop (archives : String → Except Unit (List ZipEntry))
    (mods : List (String × Mod)) :
    List String → List ScanResult → List (String × String) →
    Except Unit (List ScanResult × List (String × String))
  | [], results, jmap => Except.ok (results, jmap)
  | jar :: rest, results, jmap =>
    match inspect archives jar with
    | Except.error e => Except.error e
    | Except.ok none => scan_loop archives mods rest results jmap
    | Except.ok (some (mod_id, detected_type, detected_version)) =>
      scan_loop archives mods rest
        (results ++ [mkScanResult mods jar mod_id detected_type
          detected_version])
        (btreeInsert jar mod_id jmap)

/-- `scan_directory`: filter the directory listing to jar candidates, run
the loop, and aggregate the summary counts. -/
def scan_directory (files : List String)
    (archives : String → Except Unit (List ZipEntry))
    (mods : List (String × Mod)) :
    Except Unit (List ScanResult × ScanSummary × List (String × String)) :=
  let jar_list := get_jar_files files
  match scan_loop archives mods jar_list [] [] with
  | Except.error e => Except.error e
  | Except.ok (results, jmap) =>
    Except.ok (results,
      { jar_count := jar_list.length,
        identified_count := results.length,
        full_match_count :=
          (results.filter (fun r => r.full_match)).length },
      jmap)

/-- The filesystem contents of one directory, abstracted to a partial map
from file name to byte contents; `(fs f).isSome` models `path.is_file()`. -/
def Fs : Type := String → Option (List Nat)

/-- `zip_files_with_tag`: walk the mapping, and for each jar whose
identifier the registry tags with `tag` and which still exists, copy its
bytes into the output archive; returns the entries written and the count.
Creation of the output file is abstracted away. -/
def zip_files_with_tag (jar_to_modid : List (String × String))
    (mods : List (String × Mod)) (tag : DefaultTags) (fs : Fs) :
    List (String × List Nat) × Nat :=
  match jar_to_modid with
  | [] => ([], 0)
  | (jar, modid) :: rest =>
    match btreeGet mods modid with
    | some mod_entry =>
      if mod_entry.mod_tag = tag then
        match fs jar with
        | some buffer =>
          let out := zip_files_with_tag rest mods tag fs
          ((jar, buffer) :: out.1, out.2 + 1)
        | none => zip_files_with_tag rest mods tag fs
      else zip_files_with_tag rest mods tag fs
    | none => zip_files_with_tag rest mods tag fs

/-- `delete_files_with_tag`: walk the mapping, and for each jar whose
identifier the registry tags with `tag` and which still exists, remove it
from disk; returns the new filesystem and the count.  The function takes
no confirmation input of any kind — the DELETE confirmation lives only in
the caller (`update`'s `Operation::Delete` arm). -/
def delete_files_with_tag (jar_to_modid : List (String × String))
    (mods : List (String × Mod)) (tag : DefaultTags) (fs : Fs) : Fs × Nat :=
  match jar_to_modid with
  | [] => (fs, 0)
  | (jar, modid) :: rest =>
    match btreeGet mods modid with
    | some mod_entry =>
      if mod_entry.mod_tag = tag then
        match fs jar with
        | some _ =>
          let fs2 : Fs := fun g => if g = jar then none else fs g
          let out := delete_files_with_tag rest mods tag fs2
          (out.1, out.2 + 1)
        | none => delete_files_with_tag rest mods tag fs
      else delete_files_with_tag rest mods tag fs
    | none => delete_files_with_tag rest mods tag fs

/-- `write_names_with_tag`: walk the mapping and list, in iteration order,
the name of each jar whose identifier the registry tags with `tag` and
which still exists; returns the lines written and the count. -/
def write_names_with_tag (jar_to_modid : List (String × String))
    (mods : List (String × Mod)) (tag : DefaultTags) (fs : Fs) :
    List String × Nat :=
  match jar_to_modid with
  | [] => ([], 0)
  | (jar, modid) :: rest =>
    match btreeGet mods modid with
    | some mod_entry =>
      if mod_entry.mod_tag = tag then
        match fs jar with
        | some _ =>
          let out := write_names_with_tag rest mods tag fs
          (jar :: out.1, out.2 + 1)
        | none => write_names_with_tag rest mods tag fs
      else write_names_with_tag rest mods tag fs
    | none => write_names_with_tag rest mods tag fs

/-- `move_files_with_tag`: walk the mapping, and for each jar whose
identifier the registry tags with `tag` and which still exists in the
source directory, move it into the destination directory (the rename and
its copy-then-delete fallback have the same effect on the two directory
maps, so they are one step here; an existing destination file is
overwritten); returns both directories and the count. -/
def move_files_with_tag (jar_to_modid : List (String × String))
    (mods : List (String × Mod)) (tag : DefaultTags) (src dst : Fs) :
    Fs × Fs × Nat :=
  match jar_to_modid with
  | [] => (src, dst, 0)
  | (jar, modid) :: rest =>
    match btreeGet mods modid with
    | some mod_entry =>
      if mod_entry.mod_tag = tag then
        match src jar with
        | some buffer =>
          let src2 : Fs := fun g => if g = jar then none else src g
          let dst2 : Fs := fun g => if g = jar then some buffer else dst g
          let out := move_files_with_tag rest mods tag src2 dst2
          (out.1, out.2.1, out.2.2 + 1)
        | none => move_files_with_tag rest mods tag src dst
      else move_files_with_tag rest mods tag src dst
    | none => move_files_with_tag rest mods tag src dst

theorem mem_btreeInsert {α : Type} (k : String) (v : α)
    (l : List (String × α)) (p : String × α)
    (h : p ∈ btreeInsert k v l) : p = (k, v) ∨ p ∈ l := by
  induction l with
  | nil =>
    simp only [btreeInsert, List.mem_singleton] at h
    exact Or.inl h
  | cons q rest ih =>
    simp only [btreeInsert] at h
    split at h
    · rcases List.mem_cons.mp h with h1 | h1
      · exact Or.inl h1
      · exact Or.inr h1
    · split at h
      · rcases List.mem_cons.mp h with h1 | h1
        · exact Or.inl h1
        · exact Or.inr (List.mem_cons_of_mem _ h1)
      · rcases List.mem_cons.mp h with h1 | h1
        · exact Or.inr (h1 ▸ List.mem_cons_self _ _)
        · rcases ih h1 with h2 | h2
          · exact Or.inl h2
          · exact Or.inr (List.mem_cons_of_mem _ h2)

theorem btreeInsert_self {α : Type} (k : String) (v : α)
    (l : List (String × α)) : (k, v) ∈ btreeInsert k v l := by
  induction l with
  | nil => simp [btreeInsert]
  | cons q rest ih =>
    simp only [btreeInsert]
    split
    · exact List.mem_cons_self _ _
    · split
      · exact List.mem_cons_self _ _
      · exact List.mem_cons_of_mem _ ih

theorem mem_btreeInsert_of_ne {α : Type} (k : String) (v : α)
    (l : List (String × α)) (p : String × α)
    (h : p ∈ l) (hne : p.1 ≠ k) : p ∈ btreeInsert k v l := by
  induction l with
  | nil => cases h
  | cons q rest ih =>
    simp only [btreeInsert]
    rcases List.mem_cons.mp h with h1 | h1
    · subst h1
      split
      · exact List.mem_cons_of_mem _ (List.mem_cons_self _ _)
      · split
        · next heq => exact absurd heq.symm hne
        · exact List.mem_cons_self _ _
    · split
      · exact List.mem_cons_of_mem _ (List.mem_cons_of_mem _ h1)
      · split
        · exact List.mem_cons_of_mem _ h1
        · exact List.mem_cons_of_mem _ (ih h1)

theorem mkScanResult_jar_name (mods : List (String × Mod))
    (jn mi : String) (dt : ModTypes) (dv : Option String) :
    (mkScanResult mods jn mi dt dv).jar_name = jn := by
  unfold mkScanResult; split <;> rfl

theorem mkScanResult_mod_id (mods : List (String × Mod))
    (jn mi : String) (dt : ModTypes) (dv : Option String) :
    (mkScanResult mods jn mi dt dv).mod_id = mi := by
  unfold mkScanResult; split <;> rfl

theorem mkScanResult_detected_type (mods : List (String × Mod))
    (jn mi : String) (dt : ModTypes) (dv : Option String) :
    (mkScanResult mods jn mi dt dv).detected_type = dt := by
  unfold mkScanResult; split <;> rfl

theorem mkScanResult_detected_version (mods : List (String × Mod))
    (jn mi : String) (dt : ModTypes) (dv : Option String) :
    (mkScanResult mods jn mi dt dv).detected_version = dv := by
  unfold mkScanResult; split <;> rfl

theorem mkScanResult_full_match_iff (mods : List (String × Mod))
    (jn mi : String) (dt : ModTypes) (dv : Option String) :
    ((mkScanResult mods jn mi dt dv).full_match = true) ↔
      ∃ e, btreeGet mods mi = some e
        ∧ ∃ v, dv = some v ∧ v = e.mod_version ∧ dt = e.mod_type := by
  unfold mkScanResult
  split
  · next e heq =>
    cases dv with
    | none => simp [heq]
    | some v => simp [heq, Bool.and_eq_true, decide_eq_true_iff]
  · next heq => simp [heq]

theorem mkScanResult_full_match_of_unknown (mods : List (String × Mod))
    (jn mi : String) (dt : ModTypes) (dv : Option String)
    (h : btreeGet mods mi = none) :
    (mkScanResult mods jn mi dt dv).full_match = false := by
  unfold mkScanResult
  rw [h]

theorem scan_loop_acc_sub (archives : String → Except Unit (List ZipEntry))
    (mods : List (String × Mod)) (jars : List String)
    (accR : List ScanResult) (accM : List (String × String))
    (res : List ScanResult) (m : List (String × String))
    (h : scan_loop archives mods jars accR accM = Except.ok (res, m)) :
    ∀ r ∈ accR, r ∈ res := by
  induction jars generalizing accR accM with
  | nil =>
    simp only [scan_loop, Except.ok.injEq, Prod.mk.injEq] at h
    intro r hr
    exact h.1 ▸ hr
  | cons jar rest ih =>
    simp only [scan_loop] at h
    split at h
    · cases h
    · exact ih _ _ h
    · intro r hr
      exact ih _ _ h r (List.mem_append_left _ hr)

theorem scan_loop_results_sound
    (archives : String → Except Unit (List ZipEntry))
    (mods : List (String × Mod)) (jars : List String)
    (accR : List ScanResult) (accM : List (String × String))
    (res : List ScanResult) (m : List (String × String))
    (h : scan_loop archives mods jars accR accM = Except.ok (res, m)) :
    ∀ r ∈ res, r ∈ accR ∨ ∃ jn mi dt dv,
      inspect archives jn = Except.ok (some (mi, dt, dv))
        ∧ r = mkScanResult mods jn mi dt dv := by
  induction jars generalizing accR accM with
  | nil =>
    simp only [scan_loop, Except.ok.injEq, Prod.mk.injEq] at h
    intro r hr
    exact Or.inl (h.1 ▸ hr)
  | cons jar rest ih =>
    simp only [scan_loop] at h
    split at h
    · cases h
    · exact ih _ _ h
    · next mod_id dty dver heq =>
      intro r hr
      rcases ih _ _ h r hr with hacc | hP
      · rcases List.mem_append.mp hacc with h1 | h1
        · exact Or.inl h1
        · right
          refine ⟨jar, mod_id, dty, dver, heq, ?_⟩
          simpa using h1
      · exact Or.inr hP

theorem scan_loop_map_sound
    (archives : String → Except Unit (List ZipEntry))
    (mods : List (String × Mod)) (jars : List String)
    (accR : List ScanResult) (accM : List (String × String))
    (res : List ScanResult) (m : List (String × String))
    (h : scan_loop archives mods jars accR accM = Except.ok (res, m)) :
    ∀ p ∈ m, p ∈ accM ∨ ∃ dt dv,
      inspect archives p.1 = Except.ok (some (p.2, dt, dv)) := by
  induction jars generalizing accR accM with
  | nil =>
    simp only [scan_loop, Except.ok.injEq, Prod.mk.injEq] at h
    intro p hp
    exact Or.inl (h.2 ▸ hp)
  | cons jar rest ih =>
    simp only [scan_loop] at h
    split at h
    · cases h
    · exact ih _ _ h
    · next mod_id dty dver heq =>
      intro p hp
      rcases ih _ _ h p hp with hacc | hP
      · rcases mem_btreeInsert _ _ _ _ hacc with h1 | h1
        · right
          subst h1
          exact ⟨dty, dver, heq⟩
        · exact Or.inl h1
      · exact Or.inr hP

theorem scan_directory_ok (files : List String)
    (archives : String → Except Unit (List ZipEntry))
    (mods : List (String × Mod)) (res : List ScanResult)
    (summary : ScanSummary) (m : List (String × String))
    (h : scan_directory files archives mods
      = Except.ok (res, summary, m)) :
    scan_loop archives mods (get_jar_files files) [] []
        = Except.ok (res, m)
      ∧ summary = { jar_count := (get_jar_files files).length,
                    identified_count := res.length,
                    full_match_count :=
                      (res.filter (fun r => r.full_match)).length } := by
  simp only [scan_directory] at h
  split at h
  · cases h
  · next results jmap hsl =>
    simp only [Except.ok.injEq, Prod.mk.injEq] at h
    obtain ⟨h1, h2, h3⟩ := h
    subst h1; subst h3
    exact ⟨hsl, h2.symm⟩

/-- C1: for every record of a scan, `full_match` is true iff the detected
identifier is a registry key, a detected version is present, that version
string equals the registry entry's `mod_version`, and the detected loader
family equals the entry's `mod_type`; the characterization never consults
the entry's `mod_tag`. -/
theorem C1_full_match_iff (files : List String)
    (archives : String → Except Unit (List ZipEntry))
    (mods : List (String × Mod)) (res : List ScanResult)
    (summary : ScanSummary) (m : List (String × String))
    (h : scan_directory files archives mods = Except.ok (res, summary, m))
    (r : ScanResult) (hr : r ∈ res) :
    r.full_match = true ↔
      ∃ e, btreeGet mods r.mod_id = some e
        ∧ ∃ v, r.detected_version = some v
            ∧ v = e.mod_version ∧ r.detected_type = e.mod_type := by
  obtain ⟨hsl, _⟩ := scan_directory_ok files archives mods res summary m h
  rcases scan_loop_results_sound archives mods _ [] [] res m hsl r hr with
    h0 | ⟨jn, mi, dt, dv, _, hrec⟩
  · cases h0
  · rw [hrec, mkScanResult_mod_id, mkScanResult_detected_version,
      mkScanResult_detected_type]
    exact mkScanResult_full_match_iff mods jn mi dt dv

/-- A registry holding `create` at version `0.5.8`, tag Client, Fabric. -/
def demoMods : List (String × Mod) :=
  [("create",
    { mod_version := "0.5.8", mod_tag := DefaultTags.Client,
      mod_type := ModTypes.Fabric })]

/-- Every jar opens to an archive holding only the fabric manifest. -/
def demoArchives : String → Except Unit (List ZipEntry) :=
  fun _ => Except.ok [fabricEntry]

/-- The record the scan produces for `create.jar` over `demoMods`. -/
def demoRecord : ScanResult :=
  { jar_name := "create.jar", mod_id := "create",
    detected_type := ModTypes.Fabric, detected_version := some "0.5.8",
    module_tag := some DefaultTags.Client,
    module_type := some ModTypes.Fabric,
    module_version := some "0.5.8", full_match := true }

/-- Witness for C1 at a concrete full-match scan. -/
theorem C1_full_match_iff_witness :
    demoRecord.full_match = true ↔
      ∃ e, btreeGet demoMods demoRecord.mod_id = some e
        ∧ ∃ v, demoRecord.detected_version = some v
            ∧ v = e.mod_version ∧ demoRecord.detected_type = e.mod_type :=
  C1_full_match_iff ["create.jar"] demoArchives demoMods [demoRecord]
    { jar_count := 1, identified_count := 1, full_match_count := 1 }
    [("create.jar", "create")] (by rfl) demoRecord (by simp)

theorem scan_loop_map_stable
    (archives : String → Except Unit (List ZipEntry))
    (mods : List (String × Mod)) (jars : List String)
    (accR : List ScanResult) (accM : List (String × String))
    (res : List ScanResult) (m : List (String × String))
    (jar modid : String) (t0 : ModTypes) (v0 : Option String)
    (hjar : inspect archives jar = Except.ok (some (modid, t0, v0)))
    (h : scan_loop archives mods jars accR accM = Except.ok (res, m))
    (hp : (jar, modid) ∈ accM) : (jar, modid) ∈ m := by
  induction jars generalizing accR accM with
  | nil =>
    simp only [scan_loop, Except.ok.injEq, Prod.mk.injEq] at h
    exact h.2 ▸ hp
  | cons j rest ih =>
    simp only [scan_loop] at h
    split at h
    · cases h
    · exact ih _ _ h hp
    · next mod_id dty dver heq =>
      apply ih _ _ h
      by_cases hj : j = jar
      · subst hj
        rw [hjar] at heq
        simp only [Except.ok.injEq, Option.some.injEq, Prod.mk.injEq] at heq
        rw [heq.1]
        exact btreeInsert_self _ _ _
      · exact mem_btreeInsert_of_ne _ _ _ _ hp (fun hc => hj hc.symm)

theorem scan_loop_mem_map
    (archives : String → Except Unit (List ZipEntry))
    (mods : List (String × Mod)) (jars : List String)
    (accR : List ScanResult) (accM : List (String × String))
    (res : List ScanResult) (m : List (String × String))
    (jar modid : String) (t0 : ModTypes) (v0 : Option String)
    (hjar : inspect archives jar = Except.ok (some (modid, t0, v0)))
    (hin : jar ∈ jars)
    (h : scan_loop archives mods jars accR accM = Except.ok (res, m)) :
    (jar, modid) ∈ m := by
  induction jars generalizing accR accM with
  | nil => cases hin
  | cons j rest ih =>
    simp only [scan_loop] at h
    split at h
    · cases h
    · next heq =>
      rcases List.mem_cons.mp hin with h1 | h1
      · rw [← h1, hjar] at heq; cases heq
      · exact ih _ _ h1 h
    · next mod_id dty dver heq =>
      rcases List.mem_cons.mp hin with h1 | h1
      · subst h1
        rw [hjar] at heq
        simp only [Except.ok.injEq, Option.some.injEq, Prod.mk.injEq] at heq
        apply scan_loop_map_stable archives mods rest _ _ res m jar modid
          t0 v0 hjar h
        rw [heq.1]
        exact btreeInsert_self _ _ _
      · exact ih _ _ h1 h

theorem scan_loop_mem_results
    (archives : String → Except Unit (List ZipEntry))
    (mods : List (String × Mod)) (jars : List String)
    (accR : List ScanResult) (accM : List (String × String))
    (res : List ScanResult) (m : List (String × String))
    (jar modid : String) (t0 : ModTypes) (v0 : Option String)
    (hjar : inspect archives jar = Except.ok (some (modid, t0, v0)))
    (hin : jar ∈ jars)
    (h : scan_loop archives mods jars accR accM = Except.ok (res, m)) :
    mkScanResult mods jar modid t0 v0 ∈ res := by
  induction jars generalizing accR accM with
  | nil => cases hin
  | cons j rest ih =>
    simp only [scan_loop] at h
    split at h
    · cases h
    · next heq =>
      rcases List.mem_cons.mp hin with h1 | h1
      · rw [← h1, hjar] at heq; cases heq
      · exact ih _ _ h1 h
    · next mod_id dty dver heq =>
      rcases List.mem_cons.mp hin with h1 | h1
      · subst h1
        rw [hjar] at heq
        simp only [Except.ok.injEq, Option.some.injEq, Prod.mk.injEq] at heq
        obtain ⟨e1, e2, e3⟩ := heq
        subst e1; subst e2; subst e3
        exact scan_loop_acc_sub _ _ _ _ _ _ _ h _
          (List.mem_append_right _ (List.mem_singleton_self _))
      · exact ih _ _ h1 h

theorem scan_loop_error
    (archives : String → Except Unit (List ZipEntry))
    (mods : List (String × Mod)) (jars : List String)
    (accR : List ScanResult) (accM : List (String × String))
    (jar : String)
    (hin : jar ∈ jars)
    (hjar : inspect archives jar = Except.error ()) :
    scan_loop archives mods jars accR accM = Except.error () := by
  induction jars generalizing accR accM with
  | nil => cases hin
  | cons j rest ih =>
    simp only [scan_loop]
    split
    · next e heq => cases e; rfl
    · next heq =>
      rcases List.mem_cons.mp hin with h1 | h1
      · rw [← h1, hjar] at heq; cases heq
      · exact ih _ _ h1
    · next mod_id dty dver heq =>
      rcases List.mem_cons.mp hin with h1 | h1
      · rw [← h1, hjar] at heq; cases heq
      · exact ih _ _ h1

theorem scan_excludes (files : List String)
    (archives : String → Except Unit (List ZipEntry))
    (mods : List (String × Mod)) (res : List ScanResult)
    (summary : ScanSummary) (m : List (String × String))
    (h : scan_directory files archives mods = Except.ok (res, summary, m))
    (jar : String)
    (hjar : inspect archives jar = Except.ok none) :
    (∀ r ∈ res, r.jar_name ≠ jar) ∧ (∀ p ∈ m, p.1 ≠ jar) := by
  obtain ⟨hsl, _⟩ := scan_directory_ok files archives mods res summary m h
  constructor
  · intro r hr hname
    rcases scan_loop_results_sound archives mods _ [] [] res m hsl r hr
      with h0 | ⟨jn, mi, dt, dv, hins, hrec⟩
    · cases h0
    · have hjn : r.jar_name = jn := by rw [hrec, mkScanResult_jar_name]
      rw [hname] at hjn
      rw [← hjn, hjar] at hins
      cases hins
  · intro p hp hname
    rcases scan_loop_map_sound archives mods _ [] [] res m hsl p hp
      with h0 | ⟨dt, dv, hins⟩
    · cases h0
    · rw [hname, hjar] at hins
      cases hins

/-- Counterexample to C6 as stated: one candidate jar whose archive holds
no recognized manifest is still counted in `jar_count` (the candidate
count of the `ScanSummary`), so it is not excluded from ALL counts. -/
theorem C6_counterexample :
    (scan_directory ["plain.jar"] (fun _ => Except.ok [classEntry]) []
        = Except.ok ([],
          { jar_count := 1, identified_count := 0, full_match_count := 0 },
          []))
      ∧ (1 : Nat) ≠ 0 := ⟨rfl, by decide⟩

/-- C6 (amended): an archive with no recognized manifest name among its
entries yields no identity — not an error — and is excluded from the
records, the jar-to-identifier mapping, and hence from the identified and
full-match counts; it is, however, still counted by `jar_count`, which
counts every candidate jar found. -/
theorem C6_no_manifest_excluded (files : List String)
    (archives : String → Except Unit (List ZipEntry))
    (mods : List (String × Mod)) (res : List ScanResult)
    (summary : ScanSummary) (m : List (String × String))
    (h : scan_directory files archives mods = Except.ok (res, summary, m))
    (jar : String) (entries : List ZipEntry)
    (harch : archives jar = Except.ok entries)
    (hnone : ∀ x ∈ entries, isManifestName x.name = false) :
    get_mod_id_and_type entries = Except.ok none
      ∧ (∀ r ∈ res, r.jar_name ≠ jar)
      ∧ (∀ p ∈ m, p.1 ≠ jar)
      ∧ summary.identified_count = res.length
      ∧ summary.full_match_count
          = (res.filter (fun r => r.full_match)).length
      ∧ summary.jar_count = (get_jar_files files).length := by
  have hget : get_mod_id_and_type entries = Except.ok none := by
    have h2 := get_mod_id_skips_non_manifests entries hnone []
    simpa using h2
  have hins : inspect archives jar = Except.ok none := by
    unfold inspect; rw [harch]; exact hget
  obtain ⟨hexc1, hexc2⟩ :=
    scan_excludes files archives mods res summary m h jar hins
  obtain ⟨_, hsum⟩ := scan_directory_ok files archives mods res summary m h
  refine ⟨hget, hexc1, hexc2, ?_, ?_, ?_⟩ <;> rw [hsum]

/-- Witness for the amended C6 at a concrete manifest-less archive. -/
theorem C6_no_manifest_excluded_witness :
    get_mod_id_and_type [classEntry] = Except.ok none
      ∧ (∀ r ∈ ([] : List ScanResult), r.jar_name ≠ "plain.jar")
      ∧ (∀ p ∈ ([] : List (String × String)), p.1 ≠ "plain.jar")
      ∧ (ScanSummary.mk 1 0 0).identified_count
          = ([] : List ScanResult).length
      ∧ (ScanSummary.mk 1 0 0).full_match_count
          = (([] : List ScanResult).filter (fun r => r.full_match)).length
      ∧ (ScanSummary.mk 1 0 0).jar_count
          = (get_jar_files ["plain.jar"]).length :=
  C6_no_manifest_excluded ["plain.jar"] (fun _ => Except.ok [classEntry])
    [] [] (ScanSummary.mk 1 0 0) [] rfl "plain.jar" [classEntry] rfl
    (by intro x hx; rw [List.mem_singleton.mp hx]; decide)

/-- C9: when the first manifest-matching entry of an archive parses but
lacks a string identifier field (`mods[0].modId` for mods.toml, top-level
`id` for fabric.mod.json, `[0].modid` for mcmod.info), the inspector
returns no identity rather than an error, and the archive is excluded from
the records and the jar-to-identifier mapping exactly as if no manifest
had been found. -/
theorem C9_missing_id_is_none (files : List String)
    (archives : String → Except Unit (List ZipEntry))
    (mods : List (String × Mod)) (res : List ScanResult)
    (summary : ScanSummary) (m : List (String × String))
    (h : scan_directory files archives mods = Except.ok (res, summary, m))
    (jar : String) (entries l1 l2 : List ZipEntry) (e : ZipEntry)
    (harch : archives jar = Except.ok entries)
    (hsplit : entries = l1 ++ e :: l2)
    (hskip : ∀ x ∈ l1, isManifestName x.name = false)
    (hdialect :
      (∃ t, strEndsWith e.name "mods.toml" = true
        ∧ e.content.tomlParse = some t ∧ tomlModId t = none)
      ∨ (∃ j, strEndsWith e.name "mods.toml" = false
        ∧ strEndsWith e.name "fabric.mod.json" = true
        ∧ e.content.jsonParse = some j
        ∧ (jsonGet j "id").bind jsonAsStr = none)
      ∨ (∃ j, strEndsWith e.name "mods.toml" = false
        ∧ strEndsWith e.name "fabric.mod.json" = false
        ∧ strEndsWith e.name "mcmod.info" = true
        ∧ e.content.jsonParse = some j ∧ mcmodModId j = none)) :
    get_mod_id_and_type entries = Except.ok none
      ∧ (∀ r ∈ res, r.jar_name ≠ jar)
      ∧ (∀ p ∈ m, p.1 ≠ jar) := by
  have hentry : parseManifestEntry e = some (Except.ok none) := by
    rcases hdialect with ⟨t, h1, h2, h3⟩ | ⟨j, h1, h2, h3, h4⟩ |
      ⟨j, h1, h2, h3, h4, h5⟩
    · simp [parseManifestEntry, h1, h2, h3]
    · simp [parseManifestEntry, h1, h2, h3, h4]
    · simp [parseManifestEntry, h1, h2, h3, h4, h5]
  have hget : get_mod_id_and_type entries = Except.ok none := by
    rw [hsplit, get_mod_id_skips_non_manifests l1 hskip]
    simp [get_mod_id_and_type, hentry]
  have hins : inspect archives jar = Except.ok none := by
    unfold inspect; rw [harch]; exact hget
  have hexc := scan_excludes files archives mods res summary m h jar hins
  exact ⟨hget, hexc.1, hexc.2⟩

/-- A `fabric.mod.json` entry that parses but has no `id` field. -/
def noIdFabricEntry : ZipEntry :=
  { name := "fabric.mod.json"
    content :=
      { tomlParse := none
        jsonParse := some (JsonValue.obj [("version", JsonValue.str "1.0")])
        lowerNeo := false } }

/-- Witness for C9 at a concrete id-less fabric manifest. -/
theorem C9_missing_id_is_none_witness :
    get_mod_id_and_type [noIdFabricEntry] = Except.ok none
      ∧ (∀ r ∈ ([] : List ScanResult), r.jar_name ≠ "x.jar")
      ∧ (∀ p ∈ ([] : List (String × String)), p.1 ≠ "x.jar") :=
  C9_missing_id_is_none ["x.jar"] (fun _ => Except.ok [noIdFabricEntry])
    [] [] (ScanSummary.mk 1 0 0) [] rfl "x.jar" [noIdFabricEntry] [] []
    noIdFabricEntry rfl rfl (by intro x hx; cases hx)
    (Or.inr (Or.inl
      ⟨JsonValue.obj [("version", JsonValue.str "1.0")],
        by decide, by decide, rfl, rfl⟩))

/-- Counterexample to C4 as stated: this archive CONTAINS an entry whose
name matches a manifest filename (`mods.toml`) and whose content fails to
parse, yet the scan succeeds, because a well-formed `fabric.mod.json`
appears earlier and first-match-wins means the malformed entry is never
inspected. -/
theorem C4_counterexample :
    (scan_directory ["a.jar"]
        (fun _ => Except.ok [fabricEntry, badTomlEntry]) []
        = Except.ok
          ([{ jar_name := "a.jar", mod_id := "create",
              detected_type := ModTypes.Fabric,
              detected_version := some "0.5.8",
              module_tag := none, module_type := none,
              module_version := none, full_match := false }],
           { jar_count := 1, identified_count := 1, full_match_count := 0 },
           [("a.jar", "create")]))
      ∧ strEndsWith badTomlEntry.name "mods.toml" = true
      ∧ badTomlEntry.content.tomlParse = none := ⟨rfl, by decide, rfl⟩

/-- C4 (amended): when the FIRST manifest-matching entry of a candidate
archive fails to parse under its structured format, the entire scan
aborts with the propagated error; the `Except.error` outcome carries no
records, no summary and no mapping. -/
theorem C4_parse_error_aborts_scan (files : List String)
    (archives : String → Except Unit (List ZipEntry))
    (mods : List (String × Mod)) (jar : String)
    (entries l1 l2 : List ZipEntry) (e : ZipEntry)
    (hin : jar ∈ get_jar_files files)
    (harch : archives jar = Except.ok entries)
    (hsplit : entries = l1 ++ e :: l2)
    (hskip : ∀ x ∈ l1, isManifestName x.name = false)
    (hfail :
      (strEndsWith e.name "mods.toml" = true
        ∧ e.content.tomlParse = none)
      ∨ (strEndsWith e.name "mods.toml" = false
        ∧ strEndsWith e.name "fabric.mod.json" = true
        ∧ e.content.jsonParse = none)
      ∨ (strEndsWith e.name "mods.toml" = false
        ∧ strEndsWith e.name "fabric.mod.json" = false
        ∧ strEndsWith e.name "mcmod.info" = true
        ∧ e.content.jsonParse = none)) :
    scan_directory files archives mods = Except.error () := by
  have hentry : parseManifestEntry e = some (Except.error ()) := by
    rcases hfail with ⟨h1, h2⟩ | ⟨h1, h2, h3⟩ | ⟨h1, h2, h3, h4⟩
    · simp [parseManifestEntry, h1, h2]
    · simp [parseManifestEntry, h1, h2, h3]
    · simp [parseManifestEntry, h1, h2, h3, h4]
  have hget : get_mod_id_and_type entries = Except.error () := by
    rw [hsplit, get_mod_id_skips_non_manifests l1 hskip]
    simp [get_mod_id_and_type, hentry]
  have hins : inspect archives jar = Except.error () := by
    unfold inspect; rw [harch]; exact hget
  simp only [scan_directory]
  rw [scan_loop_error archives mods _ [] [] jar hin hins]

/-- Witness for the amended C4 at a concrete malformed `mods.toml`. -/
theorem C4_parse_error_aborts_scan_witness :
    scan_directory ["bad.jar"] (fun _ => Except.ok [badTomlEntry]) []
      = Except.error () :=
  C4_parse_error_aborts_scan ["bad.jar"]
    (fun _ => Except.ok [badTomlEntry]) [] "bad.jar" [badTomlEntry] []
    [] badTomlEntry (by decide) rfl rfl (by intro x hx; cases hx)
    (Or.inl ⟨by decide, rfl⟩)

theorem delete_untouched (m : List (String × String))
    (mods : List (String × Mod)) (tag : DefaultTags) (fs : Fs)
    (jar : String)
    (hm : ∀ p ∈ m, p.1 = jar → btreeGet mods p.2 = none) :
    (delete_files_with_tag m mods tag fs).1 jar = fs jar := by
  induction m generalizing fs with
  | nil => rfl
  | cons p rest ih =>
    obtain ⟨j, mi⟩ := p
    have hrest : ∀ q ∈ rest, q.1 = jar → btreeGet mods q.2 = none :=
      fun q hq => hm q (List.mem_cons_of_mem _ hq)
    simp only [delete_files_with_tag]
    split
    · next mod_entry hreg =>
      have hj : j ≠ jar := by
        intro hc
        have h0 := hm (j, mi) (List.mem_cons_self _ _) hc
        rw [hreg] at h0; cases h0
      split
      · split
        · next buf hfs =>
          rw [ih _ hrest]
          exact if_neg (fun hc => hj hc.symm)
        · exact ih _ hrest
      · exact ih _ hrest
    · exact ih _ hrest

theorem zip_skips (m : List (String × String))
    (mods : List (String × Mod)) (tag : DefaultTags) (fs : Fs)
    (jar : String)
    (hm : ∀ p ∈ m, p.1 = jar → btreeGet mods p.2 = none) :
    ∀ q ∈ (zip_files_with_tag m mods tag fs).1, q.1 ≠ jar := by
  induction m with
  | nil => intro q hq; cases hq
  | cons p rest ih =>
    obtain ⟨j, mi⟩ := p
    have hrest : ∀ q ∈ rest, q.1 = jar → btreeGet mods q.2 = none :=
      fun q hq => hm q (List.mem_cons_of_mem _ hq)
    simp only [zip_files_with_tag]
    split
    · next mod_entry hreg =>
      have hj : j ≠ jar := by
        intro hc
        have h0 := hm (j, mi) (List.mem_cons_self _ _) hc
        rw [hreg] at h0; cases h0
      split
      · split
        · next buf hfs =>
          intro q hq
          rcases List.mem_cons.mp hq with h1 | h1
          · rw [h1]; exact hj
          · exact ih hrest q h1
        · exact ih hrest
      · exact ih hrest
    · exact ih hrest

theorem write_names_skips (m : List (String × String))
    (mods : List (String × Mod)) (tag : DefaultTags) (fs : Fs)
    (jar : String)
    (hm : ∀ p ∈ m, p.1 = jar → btreeGet mods p.2 = none) :
    jar ∉ (write_names_with_tag m mods tag fs).1 := by
  induction m with
  | nil => intro hq; cases hq
  | cons p rest ih =>
    obtain ⟨j, mi⟩ := p
    have hrest : ∀ q ∈ rest, q.1 = jar → btreeGet mods q.2 = none :=
      fun q hq => hm q (List.mem_cons_of_mem _ hq)
    simp only [write_names_with_tag]
    split
    · next mod_entry hreg =>
      have hj : j ≠ jar := by
        intro hc
        have h0 := hm (j, mi) (List.mem_cons_self _ _) hc
        rw [hreg] at h0; cases h0
      split
      · split
        · next buf hfs =>
          intro hq
          rcases List.mem_cons.mp hq with h1 | h1
          · exact hj h1.symm
          · exact ih hrest h1
        · exact ih hrest
      · exact ih hrest
    · exact ih hrest

theorem move_untouched (m : List (String × String))
    (mods : List (String × Mod)) (tag : DefaultTags) (src dst : Fs)
    (jar : String)
    (hm : ∀ p ∈ m, p.1 = jar → btreeGet mods p.2 = none) :
    (move_files_with_tag m mods tag src dst).1 jar = src jar
      ∧ (move_files_with_tag m mods tag src dst).2.1 jar = dst jar := by
  induction m generalizing src dst with
  | nil => exact ⟨rfl, rfl⟩
  | cons p rest ih =>
    obtain ⟨j, mi⟩ := p
    have hrest : ∀ q ∈ rest, q.1 = jar → btreeGet mods q.2 = none :=
      fun q hq => hm q (List.mem_cons_of_mem _ hq)
    simp only [move_files_with_tag]
    split
    · next mod_entry hreg =>
      have hj : j ≠ jar := by
        intro hc
        have h0 := hm (j, mi) (List.mem_cons_self _ _) hc
        rw [hreg] at h0; cases h0
      split
      · split
        · next buf hfs =>
          obtain ⟨ih1, ih2⟩ := ih _ _ hrest
          refine ⟨ih1.trans ?_, ih2.trans ?_⟩
          · exact if_neg (fun hc => hj hc.symm)
          · exact if_neg (fun hc => hj hc.symm)
        · exact ih _ _ hrest
      · exact ih _ _ hrest
    · exact ih _ _ hrest

/-- C2: an archive whose manifest yields an identifier absent from the
registry is still counted among the identified records and inserted into
the jar-to-identifier mapping, but its record's `full_match` is false (so
the full-match count, which counts only full-match records, excludes it),
and every tag-gated operation — zip, delete, write-names, move — skips it
for every requested tag, the tag Unknown included. -/
theorem C2_unknown_identifier (files : List String)
    (archives : String → Except Unit (List ZipEntry))
    (mods : List (String × Mod)) (res : List ScanResult)
    (summary : ScanSummary) (m : List (String × String))
    (h : scan_directory files archives mods = Except.ok (res, summary, m))
    (jar modid : String) (dty : ModTypes) (dver : Option String)
    (hin : jar ∈ get_jar_files files)
    (hins : inspect archives jar = Except.ok (some (modid, dty, dver)))
    (hreg : btreeGet mods modid = none) :
    (jar, modid) ∈ m
      ∧ (∃ r ∈ res, r.jar_name = jar ∧ r.mod_id = modid
          ∧ r.full_match = false)
      ∧ summary.identified_count = res.length
      ∧ summary.full_match_count
          = (res.filter (fun r => r.full_match)).length
      ∧ (∀ tag fs, (delete_files_with_tag m mods tag fs).1 jar = fs jar)
      ∧ (∀ tag fs, ∀ q ∈ (zip_files_with_tag m mods tag fs).1, q.1 ≠ jar)
      ∧ (∀ tag fs, jar ∉ (write_names_with_tag m mods tag fs).1)
      ∧ (∀ tag src dst,
          (move_files_with_tag m mods tag src dst).1 jar = src jar
            ∧ (move_files_with_tag m mods tag src dst).2.1 jar = dst jar)
    := by
  obtain ⟨hsl, hsum⟩ := scan_directory_ok files archives mods res summary m h
  have hm : ∀ p ∈ m, p.1 = jar → btreeGet mods p.2 = none := by
    intro p hp hkey
    rcases scan_loop_map_sound archives mods _ [] [] res m hsl p hp with
      h0 | ⟨dt2, dv2, hins2⟩
    · cases h0
    · rw [hkey, hins] at hins2
      simp only [Except.ok.injEq, Option.some.injEq, Prod.mk.injEq] at hins2
      rw [← hins2.1]
      exact hreg
  refine ⟨scan_loop_mem_map archives mods _ [] [] res m jar modid dty dver
      hins hin hsl,
    ⟨mkScanResult mods jar modid dty dver,
      scan_loop_mem_results archives mods _ [] [] res m jar modid dty dver
        hins hin hsl,
      mkScanResult_jar_name mods jar modid dty dver,
      mkScanResult_mod_id mods jar modid dty dver,
      mkScanResult_full_match_of_unknown mods jar modid dty dver hreg⟩,
    by rw [hsum], by rw [hsum],
    fun tag fs => delete_untouched m mods tag fs jar hm,
    fun tag fs => zip_skips m mods tag fs jar hm,
    fun tag fs => write_names_skips m mods tag fs jar hm,
    fun tag src dst => move_untouched m mods tag src dst jar hm⟩

/-- A `fabric.mod.json` entry for an identifier no registry will hold. -/
def ghostEntry : ZipEntry :=
  { name := "fabric.mod.json"
    content :=
      { tomlParse := none
        jsonParse := some (JsonValue.obj
          [("id", JsonValue.str "ghost"),
           ("version", JsonValue.str "1.0")])
        lowerNeo := false } }

/-- The record the scan produces for `ghost.jar` over `demoMods`. -/
def ghostRecord : ScanResult :=
  { jar_name := "ghost.jar", mod_id := "ghost",
    detected_type := ModTypes.Fabric, detected_version := some "1.0",
    module_tag := none, module_type := none, module_version := none,
    full_match := false }

/-- Witness for C2 at a concrete unknown-identifier scan. -/
theorem C2_unknown_identifier_witness :
    ("ghost.jar", "ghost") ∈ [("ghost.jar", "ghost")]
      ∧ (∃ r ∈ [ghostRecord], r.jar_name = "ghost.jar"
          ∧ r.mod_id = "ghost" ∧ r.full_match = false)
      ∧ (ScanSummary.mk 1 1 0).identified_count = [ghostRecord].length
      ∧ (ScanSummary.mk 1 1 0).full_match_count
          = ([ghostRecord].filter (fun r => r.full_match)).length
      ∧ (∀ tag fs,
          (delete_files_with_tag [("ghost.jar", "ghost")] demoMods tag
            fs).1 "ghost.jar" = fs "ghost.jar")
      ∧ (∀ tag fs, ∀ q ∈ (zip_files_with_tag [("ghost.jar", "ghost")]
          demoMods tag fs).1, q.1 ≠ "ghost.jar")
      ∧ (∀ tag fs, "ghost.jar" ∉ (write_names_with_tag
          [("ghost.jar", "ghost")] demoMods tag fs).1)
      ∧ (∀ tag src dst,
          (move_files_with_tag [("ghost.jar", "ghost")] demoMods tag src
            dst).1 "ghost.jar" = src "ghost.jar"
            ∧ (move_files_with_tag [("ghost.jar", "ghost")] demoMods tag
                src dst).2.1 "ghost.jar" = dst "ghost.jar") :=
  C2_unknown_identifier ["ghost.jar"] (fun _ => Except.ok [ghostEntry])
    demoMods [ghostRecord] (ScanSummary.mk 1 1 0)
    [("ghost.jar", "ghost")] rfl "ghost.jar" "ghost" ModTypes.Fabric
    (some "1.0") (by decide) rfl rfl

theorem delete_files_none_mono (m : List (String × String))
    (mods : List (String × Mod)) (tag : DefaultTags) (fs : Fs)
    (g : String) (h : fs g = none) :
    (delete_files_with_tag m mods tag fs).1 g = none := by
  induction m generalizing fs with
  | nil => exact h
  | cons p rest ih =>
    obtain ⟨j, mi⟩ := p
    simp only [delete_files_with_tag]
    split
    · split
      · split
        · next buf hfs =>
          apply ih
          by_cases hgj : g = j <;> simp [hgj, h]
        · exact ih _ h
      · exact ih _ h
    · exact ih _ h

/-- C3: the delete executor removes from disk every file whose name maps
to an identifier present in the registry with `mod_tag` equal to the
requested tag and which still exists at invocation time, and returns the
number of files removed.  The function takes no confirmation input at
all, so no confirmation hypothesis appears: it deletes unconditionally. -/
theorem C3_delete_spec (m : List (String × String))
    (mods : List (String × Mod)) (tag : DefaultTags) (fs : Fs)
    (hnd : (m.map Prod.fst).Nodup) :
    (∀ jar modid, (jar, modid) ∈ m →
        ∀ e, btreeGet mods modid = some e → e.mod_tag = tag →
        (fs jar).isSome = true →
        (delete_files_with_tag m mods tag fs).1 jar = none)
      ∧ (delete_files_with_tag m mods tag fs).2
          = (m.filter (fun p =>
              ((btreeGet mods p.2).map
                  (fun e => decide (e.mod_tag = tag))).getD false
                && (fs p.1).isSome)).length := by
  induction m generalizing fs with
  | nil =>
    exact ⟨fun jar modid hmem => absurd hmem (List.not_mem_nil _), rfl⟩
  | cons p rest ih =>
    obtain ⟨j, mi⟩ := p
    rw [List.map_cons, List.nodup_cons] at hnd
    obtain ⟨hj_not, hnd2⟩ := hnd
    constructor
    · intro jar modid hmem e he htag hsome
      simp only [delete_files_with_tag]
      rcases List.mem_cons.mp hmem with h1 | h1
      · obtain ⟨hjj, hmm⟩ := Prod.mk.injEq .. ▸ h1
        subst hjj; subst hmm
        split
        · next mod_entry hreg =>
          split
          · next htag2 =>
            split
            · next buf hfs =>
              exact delete_files_none_mono rest mods tag _ jar (by simp)
            · next hfs => rw [hfs] at hsome; simp at hsome
          · next htag2 =>
            rw [he] at hreg
            injection hreg with h2
            subst h2
            exact absurd htag htag2
        · next hreg => rw [he] at hreg; cases hreg
      · have hjar_ne : jar ≠ j := by
          intro hc
          apply hj_not
          have h2 : jar ∈ List.map Prod.fst rest :=
            List.mem_map_of_mem Prod.fst h1
          rw [hc] at h2
          exact h2
        split
        · next mod_entry hreg =>
          split
          · next htag2 =>
            split
            · next buf hfs =>
              exact (ih (fun g => if g = j then none else fs g) hnd2).1
                jar modid h1 e he htag (by simpa [hjar_ne] using hsome)
            · next hfs => exact (ih fs hnd2).1 jar modid h1 e he htag hsome
          · exact (ih fs hnd2).1 jar modid h1 e he htag hsome
        · exact (ih fs hnd2).1 jar modid h1 e he htag hsome
    · simp only [delete_files_with_tag]
      split
      · next mod_entry hreg =>
        split
        · next htag =>
          split
          · next buf hfs =>
            have hagree : ∀ q ∈ rest,
                (((btreeGet mods q.2).map
                    (fun e => decide (e.mod_tag = tag))).getD false
                  && (((fun g => if g = j then none else fs g) : Fs)
                        q.1).isSome)
                  = (((btreeGet mods q.2).map
                      (fun e => decide (e.mod_tag = tag))).getD false
                    && (fs q.1).isSome) := by
              intro q hq
              have hne : q.1 ≠ j := by
                intro hc
                apply hj_not
                have h2 : q.1 ∈ List.map Prod.fst rest :=
                  List.mem_map_of_mem Prod.fst hq
                rw [hc] at h2
                exact h2
              simp [hne]
            have hhead : (((btreeGet mods (j, mi).2).map
                (fun e => decide (e.mod_tag = tag))).getD false
                && (fs (j, mi).1).isSome) = true := by
              simp [hreg, htag, hfs]
            rw [List.filter_cons, if_pos hhead, List.length_cons]
            have hfin : (delete_files_with_tag rest mods tag
                  (fun g => if g = j then none else fs g)).2
                = (rest.filter (fun p =>
                    ((btreeGet mods p.2).map
                        (fun e => decide (e.mod_tag = tag))).getD false
                      && (fs p.1).isSome)).length :=
              ((ih (fun g => if g = j then none else fs g) hnd2).2).trans
                (congrArg List.length (List.filter_congr hagree))
            exact congrArg (fun n => n + 1) hfin
          · next hfs =>
            have hhead : (((btreeGet mods (j, mi).2).map
                (fun e => decide (e.mod_tag = tag))).getD false
                && (fs (j, mi).1).isSome) = false := by
              simp [hreg, htag, hfs]
            rw [List.filter_cons, if_neg (by simp [hhead])]
            exact (ih fs hnd2).2
        · next htag =>
          have hhead : (((btreeGet mods (j, mi).2).map
              (fun e => decide (e.mod_tag = tag))).getD false
              && (fs (j, mi).1).isSome) = false := by
            simp [hreg, htag]
          rw [List.filter_cons, if_neg (by simp [hhead])]
          exact (ih fs hnd2).2
      · next hreg =>
        have hhead : (((btreeGet mods (j, mi).2).map
            (fun e => decide (e.mod_tag = tag))).getD false
            && (fs (j, mi).1).isSome) = false := by
          simp [hreg]
        rw [List.filter_cons, if_neg (by simp [hhead])]
        exact (ih fs hnd2).2

/-- The directory contents for the C3 witness: one existing jar. -/
def demoFs : Fs := fun g => if g = "create.jar" then some [1, 2] else none

/-- Witness for C3 at a concrete one-entry mapping and registry. -/
theorem C3_delete_spec_witness :
    (∀ jar modid, (jar, modid) ∈ [("create.jar", "create")] →
        ∀ e, btreeGet demoMods modid = some e
          → e.mod_tag = DefaultTags.Client →
        (demoFs jar).isSome = true →
        (delete_files_with_tag [("create.jar", "create")] demoMods
          DefaultTags.Client demoFs).1 jar = none)
      ∧ (delete_files_with_tag [("create.jar", "create")] demoMods
          DefaultTags.Client demoFs).2
          = (([("create.jar", "create")]).filter (fun p =>
              ((btreeGet demoMods p.2).map
                  (fun e => decide (e.mod_tag = DefaultTags.Client))).getD
                  false
                && (demoFs p.1).isSome)).length :=
  C3_delete_spec [("create.jar", "create")] demoMods DefaultTags.Client
    demoFs (by decide)

/-- The `ModuleHeader` struct: registry header fields.  `module_version`
is a JSON number in the file; it is carried here as the number's decimal
text, which value-level serialization preserves exactly. -/
structure ModuleHeaderJ where
  module_name : String
  module_version : String
  module_author : String
deriving DecidableEq

/-- The `ModuleJson` struct: the registry file's shape — a header plus an
identifier-to-entry mapping (a `BTreeMap`, carried as its sorted
association list). -/
structure ModuleJsonM where
  header : ModuleHeaderJ
  mods : List (String × Mod)
deriving DecidableEq

/-- `Value::as_object`-style accessor: the fields of a JSON object. -/
def jsonAsObj : JsonValue → Option (List (String × JsonValue))
  | .obj fields => some fields
  | _ => none

/-- Modelled from the spec: serde serialization of a `DefaultTags` unit
variant as its name string (`"mod_tag": "Unknown"|"Client"|"Server"|"Both"`
in §6); the source only derives `Serialize`, no hand-written writer exists
under src. -/
def tagToJson : DefaultTags → JsonValue
  | DefaultTags.Unknown => JsonValue.str "Unknown"
  | DefaultTags.Client => JsonValue.str "Client"
  | DefaultTags.Server => JsonValue.str "Server"
  | DefaultTags.Both => JsonValue.str "Both"

/-- Modelled from the spec: serde deserialization of a `DefaultTags` unit
variant from its name string. -/
def tagFromJson : JsonValue → Option DefaultTags
  | JsonValue.str "Unknown" => some DefaultTags.Unknown
  | JsonValue.str "Client" => some DefaultTags.Client
  | JsonValue.str "Server" => some DefaultTags.Server
  | JsonValue.str "Both" => some DefaultTags.Both
  | _ => none

/-- Modelled from the spec: serde serialization of a `ModTypes` unit
variant as its name string (§6). -/
def typeToJson : ModTypes → JsonValue
  | ModTypes.Unknown => JsonValue.str "Unknown"
  | ModTypes.Forge => JsonValue.str "Forge"
  | ModTypes.NeoForge => JsonValue.str "NeoForge"
  | ModTypes.Fabric => JsonValue.str "Fabric"
  | ModTypes.Quilt => JsonValue.str "Quilt"

/-- Modelled from the spec: serde deserialization of a `ModTypes` unit
variant from its name string. -/
def typeFromJson : JsonValue → Option ModTypes
  | JsonValue.str "Unknown" => some ModTypes.Unknown
  | JsonValue.str "Forge" => some ModTypes.Forge
  | JsonValue.str "NeoForge" => some ModTypes.NeoForge
  | JsonValue.str "Fabric" => some ModTypes.Fabric
  | JsonValue.str "Quilt" => some ModTypes.Quilt
  | _ => none

/-- Modelled from the spec: serde serialization of one `Mod` entry as the
object `{"mod_version": ..., "mod_tag": ..., "mod_type": ...}` (§6). -/
def modToJson (e : Mod) : JsonValue :=
  JsonValue.obj
    [("mod_version", JsonValue.str e.mod_version),
     ("mod_tag", tagToJson e.mod_tag),
     ("mod_type", typeToJson e.mod_type)]

/-- Modelled from the spec: serde deserialization of one `Mod` entry;
every field is required, with no schema migration. -/
def modFromJson (j : JsonValue) : Option Mod :=
  match (jsonGet j "mod_version").bind jsonAsStr with
  | none => none
  | some v =>
    match (jsonGet j "mod_tag").bind tagFromJson with
    | none => none
    | some t =>
      match (jsonGet j "mod_type").bind typeFromJson with
      | none => none
      | some ty => some { mod_version := v, mod_tag := t, mod_type := ty }

/-- Modelled from the spec: serde serialization of the whole registry file
(§6): a `header` object with `module_name`, `module_version`,
`module_author`, and a `mods` object mapping each identifier to its entry
in the `BTreeMap` iteration order. -/
def moduleToJson (mj : ModuleJsonM) : JsonValue :=
  JsonValue.obj
    [("header", JsonValue.obj
        [("module_name", JsonValue.str mj.header.module_name),
         ("module_version", JsonValue.num mj.header.module_version),
         ("module_author", JsonValue.str mj.header.module_author)]),
     ("mods", JsonValue.obj (mj.mods.map (fun p => (p.1, modToJson p.2))))]

/-- Modelled from the spec: serde deserialization of the `mods` object's
fields, each value a `Mod` entry, keys kept in order. -/
def modsFromJson : List (String × JsonValue) → Option (List (String × Mod))
  | [] => some []
  | p :: rest =>
    match modFromJson p.2 with
    | none => none
    | some e =>
      match modsFromJson rest with
      | none => none
      | some es => some ((p.1, e) :: es)

/-- Modelled from the spec: serde deserialization of the registry file, as
performed by `Module::from_file` via `serde_json::from_str`; the shape
must match exactly. -/
def moduleFromJson (j : JsonValue) : Option ModuleJsonM :=
  match jsonGet j "header" with
  | none => none
  | some h =>
    match (jsonGet h "module_name").bind jsonAsStr with
    | none => none
    | some name =>
      match (jsonGet h "module_version").bind jsonAsF64Str with
      | none => none
      | some ver =>
        match (jsonGet h "module_author").bind jsonAsStr with
        | none => none
        | some author =>
          match (jsonGet j "mods").bind jsonAsObj with
          | none => none
          | some fields =>
            match modsFromJson fields with
            | none => none
            | some mods =>
              some { header := { module_name := name,
                                 module_version := ver,
                                 module_author := author },
                     mods := mods }

theorem modFromJson_modToJson (e : Mod) :
    modFromJson (modToJson e) = some e := by
  obtain ⟨v, t, ty⟩ := e
  cases t <;> cases ty <;> rfl

theorem modsFromJson_roundtrip (l : List (String × Mod)) :
    modsFromJson (l.map (fun p => (p.1, modToJson p.2))) = some l := by
  induction l with
  | nil => rfl
  | cons p rest ih =>
    rw [List.map_cons]
    simp only [modsFromJson, modFromJson_modToJson, ih]

/-- C8: serializing a registry — header fields `module_name`,
`module_version`, `module_author` plus the identifier-to-entry mapping —
to its file format and parsing the result back yields a registry with
identical header fields and an identical identifier-to-entry mapping. -/
theorem C8_registry_roundtrip (mj : ModuleJsonM) :
    moduleFromJson (moduleToJson mj) = some mj := by
  obtain ⟨⟨name, ver, author⟩, mods⟩ := mj
  have step : moduleFromJson (moduleToJson ⟨⟨name, ver, author⟩, mods⟩)
      = (match modsFromJson (mods.map (fun p => (p.1, modToJson p.2))) with
         | none => none
         | some ms =>
           some (⟨⟨name, ver, author⟩, ms⟩ : ModuleJsonM)) := rfl
  rw [step, modsFromJson_roundtrip]

end Lodestone
